import Mathlib

/-!
A verification development for the libbitcoin-watcher transaction store
(`tx_db`, in src/tx_db.cpp together with its header) and the polling
engine (`tx_updater`, in src/tx_updater.cpp).  The definitions below are
a shallow embedding of those two translation units: each Lean function
mirrors one C++ member function, keeping its name.  Machine integers are
modelled as `Nat` with an explicit `% 2 ^ 64` (or `% 256`) wherever the
C++ relies on fixed-width wrap-around or narrowing.  Hashes, payment
addresses and scripts are opaque to this code, so they are modelled as
`Nat` respectively `List Nat`.
-/

/-- An output point: a transaction hash plus an output index
(`bc::output_point`, primitives layer). -/
structure OutPoint where
  hash : Nat
  index : Nat
deriving DecidableEq

/-- A transaction input: the previous output it spends and its script
(`bc::transaction_input_type`, primitives layer). -/
structure TxInput where
  previous_output : OutPoint
  script : List Nat
deriving DecidableEq

/-- A transaction output: a value and a script
(`bc::transaction_output_type`, primitives layer). -/
structure TxOutput where
  value : Nat
  script : List Nat
deriving DecidableEq

/-- A transaction, reduced to the fields the watcher inspects: inputs and
outputs (`bc::transaction_type`, primitives layer). -/
structure Transaction where
  inputs : List TxInput
  outputs : List TxOutput
deriving DecidableEq

/-- The default-constructed transaction, returned by `tx_db::get_tx` for
an absent hash. -/
def emptyTx : Transaction := ⟨[], []⟩

/-- The lifecycle states of a row.  In the C++ source `tx_state` is an
enum whose values travel through `static_cast` to and from `uint8_t`
during serialization, so a loaded row can carry any byte value; the
state is therefore embedded as a plain `Nat` with the three named
constants below (tx_db.hpp). -/
def tx_state.unsent : Nat := 0

/-- `tx_state::unconfirmed` (tx_db.hpp). -/
def tx_state.unconfirmed : Nat := 1

/-- `tx_state::confirmed` (tx_db.hpp). -/
def tx_state.confirmed : Nat := 2

/-- One row of the transaction database (`tx_db::tx_row`, tx_db.hpp). -/
structure TxRow where
  tx : Transaction
  state : Nat
  block_height : Nat
  timestamp : Nat
  need_check : Bool
deriving DecidableEq

/-- The `tx_db` object state: the last block height seen and the hash-to-row
map `rows_`, embedded as an association list whose keys are unique in
every state the C++ `std::unordered_map` can be in.  The configuration
constant `unconfirmed_timeout_` is passed explicitly to `serialize`,
the only operation that reads it. -/
structure Store where
  last_height : Nat
  rows : List (Nat × TxRow)
deriving DecidableEq

/-- A freshly constructed `tx_db`: `last_height_ = 0`, no rows. -/
def emptyStore : Store := ⟨0, []⟩

/-- `rows_.find(tx_hash)`: the first row stored under the given key. -/
def findRow (tx_hash : Nat) : List (Nat × TxRow) → Option TxRow
  | [] => none
  | r :: rest => if r.1 = tx_hash then some r.2 else findRow tx_hash rest

/-- In-place mutation of the row stored under a key, as done through a
map iterator in the C++ source. -/
def updateRow (tx_hash : Nat) (f : TxRow → TxRow) (rows : List (Nat × TxRow)) :
    List (Nat × TxRow) :=
  rows.map (fun r => if r.1 = tx_hash then (r.1, f r.2) else r)

/-- `rows[hash] = std::move(row)` inside `tx_db::load`: replace the row
when the key exists, append it otherwise. -/
def upsertRow (tx_hash : Nat) (row : TxRow) (rows : List (Nat × TxRow)) :
    List (Nat × TxRow) :=
  if (findRow tx_hash rows).isSome then
    updateRow tx_hash (fun _ => row) rows
  else
    rows ++ [(tx_hash, row)]

/-- The keys of the row map are pairwise distinct; every state of an
`std::unordered_map` satisfies this. -/
def nodupKeys (s : Store) : Prop := (s.rows.map Prod.fst).Nodup

/-- Little-endian fixed-width integer write: `n` bytes of `v`
(`serializer::write_4_bytes`, `write_8_bytes`, `write_hash` with
`n = 4`, `8`, `32`). -/
def encLE : Nat → Nat → List Nat
  | 0, _ => []
  | n + 1, v => v % 256 :: encLE n (v / 256)

/-- Little-endian fixed-width integer read; `none` models the
`bc::end_of_stream` exception on truncated input
(`deserializer::read_4_bytes`, `read_8_bytes`, `read_hash`). -/
def readLE : Nat → List Nat → Option (Nat × List Nat)
  | 0, data => some (0, data)
  | _ + 1, [] => none
  | n + 1, b :: rest =>
    match readLE n rest with
    | none => none
    | some (v, r) => some (b + 256 * v, r)

/-- Modelled from the spec: the canonical network serialization of a
script within a transaction (primitives layer, external to this
repository): a length-prefixed byte string. -/
def encScript (scr : List Nat) : List Nat := encLE 8 scr.length ++ scr.map (· % 256)

/-- Modelled from the spec: canonical serialization of one input
(primitives layer). -/
def encInput (i : TxInput) : List Nat :=
  encLE 32 i.previous_output.hash ++ encLE 4 i.previous_output.index ++ encScript i.script

/-- Modelled from the spec: canonical serialization of one output
(primitives layer). -/
def encOutput (o : TxOutput) : List Nat :=
  encLE 8 o.value ++ encScript o.script

/-- Modelled from the spec: `satoshi_save`, the canonical bit-exact
transaction serializer of the primitives layer, which this repository
consumes but does not implement.  A count-prefixed concatenation of the
inputs followed by the outputs. -/
def txEncode (tx : Transaction) : List Nat :=
  encLE 8 tx.inputs.length ++ tx.inputs.flatMap encInput ++
  encLE 8 tx.outputs.length ++ tx.outputs.flatMap encOutput

/-- Script reader, inverse of `encScript`; `none` models
`bc::end_of_stream` on truncation. -/
def readScript (data : List Nat) : Option (List Nat × List Nat) :=
  match readLE 8 data with
  | none => none
  | some (len, r) => if len ≤ r.length then some (r.take len, r.drop len) else none

/-- One input, inverse of `encInput`. -/
def parseInput (data : List Nat) : Option (TxInput × List Nat) :=
  match readLE 32 data with
  | none => none
  | some (h, r1) =>
    match readLE 4 r1 with
    | none => none
    | some (idx, r2) =>
      match readScript r2 with
      | none => none
      | some (scr, r3) => some (⟨⟨h, idx⟩, scr⟩, r3)

/-- A counted list of inputs. -/
def parseInputs : Nat → List Nat → Option (List TxInput × List Nat)
  | 0, data => some ([], data)
  | n + 1, data =>
    match parseInput data with
    | none => none
    | some (i, r) =>
      match parseInputs n r with
      | none => none
      | some (is, r2) => some (i :: is, r2)

/-- One output, inverse of `encOutput`. -/
def parseOutput (data : List Nat) : Option (TxOutput × List Nat) :=
  match readLE 8 data with
  | none => none
  | some (v, r1) =>
    match readScript r1 with
    | none => none
    | some (scr, r2) => some (⟨v, scr⟩, r2)

/-- A counted list of outputs. -/
def parseOutputs : Nat → List Nat → Option (List TxOutput × List Nat)
  | 0, data => some ([], data)
  | n + 1, data =>
    match parseOutput data with
    | none => none
    | some (o, r) =>
      match parseOutputs n r with
      | none => none
      | some (os, r2) => some (o :: os, r2)

/-- Modelled from the spec: `satoshi_load` followed by the
`satoshi_raw_size` advance in `tx_db::load` (primitives layer): decode a
transaction from a prefix of the data and return the decoded value with
the unconsumed suffix; `none` models `bc::end_of_stream` on malformed
transaction data. -/
def parseTx (data : List Nat) : Option (Transaction × List Nat) :=
  match readLE 8 data with
  | none => none
  | some (nin, r1) =>
    match parseInputs nin r1 with
    | none => none
    | some (ins, r2) =>
      match readLE 8 r2 with
      | none => none
      | some (nout, r3) =>
        match parseOutputs nout r3 with
        | none => none
        | some (outs, r4) => some (⟨ins, outs⟩, r4)

/-- `constexpr uint32_t old_serial_magic = 0x3eab61c3` (tx_db.cpp). -/
def old_serial_magic : Nat := 0x3eab61c3

/-- `constexpr uint32_t serial_magic = 0xfecdb760` (tx_db.cpp). -/
def serial_magic : Nat := 0xfecdb760

/-- `constexpr uint8_t serial_tx = 0x42` (tx_db.cpp). -/
def serial_tx : Nat := 0x42

namespace tx_db

/-- `tx_db::last_height` (tx_db.cpp). -/
def last_height (s : Store) : Nat := s.last_height

/-- `tx_db::has_tx` (tx_db.cpp). -/
def has_tx (tx_hash : Nat) (s : Store) : Bool := (findRow tx_hash s.rows).isSome

/-- `tx_db::get_tx` (tx_db.cpp): the stored transaction, or a
default-constructed one when the hash is absent. -/
def get_tx (tx_hash : Nat) (s : Store) : Transaction :=
  match findRow tx_hash s.rows with
  | none => emptyTx
  | some row => row.tx

/-- `tx_db::get_tx_height` (tx_db.cpp). -/
def get_tx_height (tx_hash : Nat) (s : Store) : Nat :=
  match findRow tx_hash s.rows with
  | none => 0
  | some row => if row.state = tx_state.confirmed then row.block_height else 0

/-- `tx_db::is_spend` (tx_db.cpp).  The `bc::extract` script-to-address
primitive is external to this repository and is passed in as the
`extract` argument; the loop returns `false` as soon as an input script
fails to extract or extracts to an address outside the given set. -/
def is_spend (extract : List Nat → Option Nat) (tx_hash : Nat)
    (addresses : List Nat) (s : Store) : Bool :=
  match findRow tx_hash s.rows with
  | none => false
  | some row =>
    row.tx.inputs.all (fun input =>
      match extract input.script with
      | none => false
      | some a => addresses.contains a)

/-- The set of spent output points: the first loop of `tx_db::get_utxos`
(tx_db.cpp) collects every input's `previous_output` of every row into
`spends`. -/
def spends (s : Store) : List OutPoint :=
  s.rows.flatMap (fun r => r.2.tx.inputs.map (·.previous_output))

/-- The second loop of `tx_db::get_utxos` restricted to one row: walk
output indices `i` from `0` to `outputs.size()`, keep `(point, value)`
when `point = (row key, i)` is not in the spend set. -/
def rowUtxos (spent : List OutPoint) (tx_hash : Nat) (row : TxRow) :
    List (OutPoint × Nat) :=
  (List.range row.tx.outputs.length).filterMap (fun i =>
    if (⟨tx_hash, i⟩ : OutPoint) ∈ spent then none
    else some (⟨tx_hash, i⟩, (row.tx.outputs.getD i ⟨0, []⟩).value))

/-- `tx_db::get_utxos` (tx_db.cpp, the nullary overload). -/
def get_utxos (s : Store) : List (OutPoint × Nat) :=
  s.rows.flatMap (fun r => rowUtxos (spends s) r.1 r.2)

/-- Every output of every row, as `(point, value)` pairs; the set
`get_utxos` filters against the spend set. -/
def allOutputs (s : Store) : List (OutPoint × Nat) :=
  s.rows.flatMap (fun r =>
    (List.range r.2.tx.outputs.length).map (fun i =>
      ((⟨r.1, i⟩ : OutPoint), (r.2.tx.outputs.getD i ⟨0, []⟩).value)))

/-- `tx_db::serialize` (tx_db.cpp).  `timeout` is the `tx_db` constant
`unconfirmed_timeout_` and `now` the value of `time(nullptr)`.  Note the
skip condition tests only the timestamp, for rows in every state. -/
def serialize (timeout now : Nat) (s : Store) : List Nat :=
  encLE 4 serial_magic ++ encLE 8 s.last_height ++
  s.rows.flatMap (fun r =>
    if r.2.timestamp + timeout < now then []
    else
      let height := if tx_state.unconfirmed = r.2.state then r.2.timestamp
                    else r.2.block_height
      serial_tx :: (encLE 32 r.1 ++ txEncode r.2.tx ++
        (r.2.state % 256) :: (encLE 8 height ++
        [if r.2.need_check then 1 else 0])))

/-- The row-reading loop of `tx_db::load` (tx_db.cpp).  Each iteration
reads the `serial_tx` tag, the hash, the transaction, the state byte,
the eight-byte height (which doubles as the timestamp of unconfirmed
rows) and the `need_check` byte.  The fuel argument only serves
termination; every iteration consumes at least one byte, so a fuel of
`data.length + 1` never runs out. -/
def parseRows : Nat → List (Nat × TxRow) → Nat → List Nat →
    Option (List (Nat × TxRow))
  | _, rows, _, [] => some rows
  | 0, _, _, _ :: _ => none
  | fuel + 1, rows, now, b :: rest =>
    if b = serial_tx then
      match readLE 32 rest with
      | none => none
      | some (tx_hash, r1) =>
        match parseTx r1 with
        | none => none
        | some (tx, r2) =>
          match readLE 1 r2 with
          | none => none
          | some (stByte, r3) =>
            match readLE 8 r3 with
            | none => none
            | some (height, r4) =>
              match readLE 1 r4 with
              | none => none
              | some (ncByte, r5) =>
                let ts := if tx_state.unconfirmed = stByte then height else now
                let row : TxRow :=
                  ⟨tx, stByte, height, ts, decide (ncByte ≠ 0)⟩
                parseRows fuel (upsertRow tx_hash row rows) now r5
    else none

/-- `tx_db::load` (tx_db.cpp): read the magic (legacy magic succeeds
immediately without touching the store, a foreign magic fails), the last
height, then the rows; any read failure maps to `return false` with the
store untouched, and only complete success replaces `last_height_` and
`rows_`. -/
def load (data : List Nat) (now : Nat) (s : Store) : Bool × Store :=
  match readLE 4 data with
  | none => (false, s)
  | some (magic, r1) =>
    if magic = old_serial_magic then (true, s)
    else if magic = serial_magic then
      match readLE 8 r1 with
      | none => (false, s)
      | some (lh, r2) =>
        match parseRows (r2.length + 1) [] now r2 with
        | none => (false, s)
        | some rows => (true, ⟨lh, rows⟩)
    else (false, s)

/-- The scan loop of `tx_db::check_fork` (tx_db.cpp): the largest
confirmed height strictly below the given height, `0` when there is
none. -/
def fork_prev_height (height : Nat) (s : Store) : Nat :=
  s.rows.foldl
    (fun prev r =>
      if r.2.state = tx_state.confirmed ∧ r.2.block_height < height ∧
          prev < r.2.block_height
      then r.2.block_height else prev) 0

/-- `tx_db::check_fork` (tx_db.cpp) as written.  Both loops are
`for (auto row : rows_)`, i.e. range-for over copies of the map
entries, so the assignment `row.second.need_check = true` in the second
loop lands on a loop-local copy; the copies are dropped and the map is
returned unmodified. -/
def check_fork (height : Nat) (s : Store) : Store :=
  let prev_height := fork_prev_height height s
  let _marked := s.rows.map (fun r =>
    if r.2.state = tx_state.confirmed ∧ r.2.block_height = prev_height
    then (r.1, { r.2 with need_check := true }) else r)
  s

/-- Modelled from the spec: the fork-marking pass of section 4.1
("for every confirmed row with block_height == p, set need_check =
true") applied to the store itself, i.e. the behaviour `check_fork`'s
own comment announces; kept for contrast with `check_fork` as
implemented. -/
def check_fork_marking (height : Nat) (s : Store) : Store :=
  let prev_height := fork_prev_height height s
  { s with rows := s.rows.map (fun r =>
      if r.2.state = tx_state.confirmed ∧ r.2.block_height = prev_height
      then (r.1, { r.2 with need_check := true }) else r) }

/-- `tx_db::at_height` (tx_db.cpp): store the height, then run the fork
check. -/
def at_height (height : Nat) (s : Store) : Store :=
  check_fork height { s with last_height := height }

/-- `tx_db::insert` (tx_db.cpp).  `hashFn` stands for the external
primitive `bc::hash_transaction` and `now` for `time(nullptr)`. -/
def insert (hashFn : Transaction → Nat) (tx : Transaction)
    (state now : Nat) (s : Store) : Bool × Store :=
  let tx_hash := hashFn tx
  match findRow tx_hash s.rows with
  | none => (true, { s with rows := (tx_hash, ⟨tx, state, 0, now, false⟩) :: s.rows })
  | some _ => (false, s)

/-- `tx_db::confirmed` (tx_db.cpp).  `none` models the
`BITCOIN_ASSERT(i != rows_.end())` failure on an absent hash (the build
enables assertions, so the process aborts). -/
def confirmed (tx_hash block_height : Nat) (s : Store) : Option Store :=
  match findRow tx_hash s.rows with
  | none => none
  | some row =>
    let s1 := if row.state = tx_state.confirmed ∧ row.block_height ≠ block_height
              then check_fork row.block_height s else s
    let rows' := updateRow tx_hash
      (fun r => { r with state := tx_state.confirmed, block_height := block_height })
      s1.rows
    some { s1 with rows := rows' }

/-- `tx_db::unconfirmed` (tx_db.cpp).  `none` models the
`BITCOIN_ASSERT(i != rows_.end())` failure on an absent hash.  Note the
row keeps its `need_check` flag and its `block_height`. -/
def unconfirmed (tx_hash : Nat) (s : Store) : Option Store :=
  match findRow tx_hash s.rows with
  | none => none
  | some row =>
    let s1 := if row.state = tx_state.confirmed
              then check_fork row.block_height s else s
    let rows' := updateRow tx_hash
      (fun r => { r with state := tx_state.unconfirmed }) s1.rows
    some { s1 with rows := rows' }

/-- `tx_db::forget` (tx_db.cpp): `rows_.erase(tx_hash)`. -/
def forget (tx_hash : Nat) (s : Store) : Store :=
  { s with rows := s.rows.filter (fun r => decide (¬ r.1 = tx_hash)) }

/-- `tx_db::reset_timestamp` (tx_db.cpp): refresh the timestamp when
the row exists, otherwise do nothing. -/
def reset_timestamp (tx_hash now : Nat) (s : Store) : Store :=
  match findRow tx_hash s.rows with
  | none => s
  | some _ =>
    let rows' := updateRow tx_hash (fun r => { r with timestamp := now }) s.rows
    { s with rows := rows' }

/-- The hashes `tx_db::foreach_forked` feeds to its callback: every row
with confirmed state and a set `need_check` flag (tx_db.cpp). -/
def foreach_forked_list (s : Store) : List Nat :=
  (s.rows.filter (fun r =>
    decide (r.2.state = tx_state.confirmed) && r.2.need_check)).map (·.1)

end tx_db

/-- The slice of `tx_updater` state that the `fetch_transaction_index`
callbacks touch: the database and the `queued_get_indices_` counter
(a `size_t`), tx_updater.hpp. -/
structure UpdSt where
  db : Store
  queued_get_indices : Nat
deriving DecidableEq

/-- `tx_updater::queue_get_indices` (tx_updater.cpp): when no index
sweep is outstanding, dispatch one `get_index` per forked row; the
result lists the hashes dispatched. -/
def queue_get_indices (st : UpdSt) : List Nat :=
  if st.queued_get_indices ≠ 0 then [] else tx_db.foreach_forked_list st.db

/-- The `on_error` callback of `tx_updater::get_index`
(tx_updater.cpp): interpret the failure as "the transaction is
unconfirmed", decrement `queued_get_indices_`, re-run
`queue_get_indices`.  The call into `tx_db::unconfirmed` asserts that
the row exists, so the whole handler aborts (`none`) on a hash that is
absent from the store. -/
def get_index_on_error (tx_hash : Nat) (st : UpdSt) : Option (UpdSt × List Nat) :=
  match tx_db.unconfirmed tx_hash st.db with
  | none => none
  | some db' =>
    let st' : UpdSt := ⟨db', (st.queued_get_indices + (2 ^ 64 - 1)) % 2 ^ 64⟩
    some (st', queue_get_indices st')

/-- The two kinds of events that drive the `queued_queries_` counter of
`tx_updater`: a query dispatch (`++queued_queries_` in `get_tx`,
`get_tx_mem` and `query_address`) and a completion
(`tx_updater::query_done`). -/
inductive QEvent
  | dispatch
  | complete
deriving DecidableEq

/-- One step of the `queued_queries_` counter, a `size_t`:
`++queued_queries_` on a dispatch, `--queued_queries_` on a completion
(tx_updater.cpp). -/
def qnext (n : Nat) : QEvent → Nat
  | .dispatch => (n + 1) % 2 ^ 64
  | .complete => (n + (2 ^ 64 - 1)) % 2 ^ 64

/-- Whether the step emits `on_quiet`: only `query_done` tests the
counter, after its decrement (`if (!queued_queries_)
callbacks_.on_quiet()`, tx_updater.cpp). -/
def qemits (n : Nat) : QEvent → Bool
  | .dispatch => false
  | .complete => decide ((n + (2 ^ 64 - 1)) % 2 ^ 64 = 0)

/-- The counter after a list of events, starting from an idle updater
(`queued_queries_ = 0`, tx_updater.cpp constructor). -/
def qcount (es : List QEvent) : Nat := es.foldl qnext 0

/-- Whether `on_quiet` is emitted at position `i` of the event list. -/
def quietAt (es : List QEvent) (i : Nat) : Bool :=
  qemits (qcount (es.take i)) (es.getD i .dispatch)

/-- The counter events performed by the `on_error` callback of
`tx_updater::get_tx` (tx_updater.cpp): it first calls `get_tx_mem`,
which dispatches the mempool fallback query (an increment), and only
then calls `query_done` (the decrement for the failed query). -/
def getTxOnErrorEvents : List QEvent := [.dispatch, .complete]

/-- The invariant of spec section 3: a set `need_check` flag implies a
confirmed row. -/
def needCheckInv (s : Store) : Prop :=
  ∀ r ∈ s.rows, r.2.need_check = true → r.2.state = tx_state.confirmed

/-- `tx_db::insert` folded over a whole call sequence; each list entry
carries the transaction, the requested state and the insertion time. -/
def insertAll (hashFn : Transaction → Nat)
    (calls : List (Transaction × Nat × Nat)) (s : Store) : Store :=
  calls.foldl (fun acc c => (tx_db.insert hashFn c.1 c.2.1 c.2.2 acc).2) s

/-- Decidability of the `need_check` invariant, for evaluation on
concrete stores. -/
instance (s : Store) : Decidable (needCheckInv s) :=
  inferInstanceAs (Decidable (∀ r ∈ s.rows, r.2.need_check = true →
    r.2.state = tx_state.confirmed))

/-- Decidability of key uniqueness, for concrete stores. -/
instance (s : Store) : Decidable (nodupKeys s) :=
  inferInstanceAs (Decidable ((s.rows.map Prod.fst).Nodup))

/-- The confirmed row of the spec's reorg scenario: block height 100,
flag clear. -/
def rowC1 : TxRow := ⟨emptyTx, tx_state.confirmed, 100, 0, false⟩

/-- A store holding only `rowC1` under hash 1. -/
def storeC1 : Store := ⟨0, [(1, rowC1)]⟩

/-- A store with one old confirmed row: timestamp 0, block height 50. -/
def storeC2 : Store := ⟨60, [(7, ⟨emptyTx, tx_state.confirmed, 50, 0, false⟩)]⟩

/-- A non-empty store (one unsent row under hash 9). -/
def storeC4 : Store := ⟨3, [(9, ⟨emptyTx, tx_state.unsent, 0, 0, false⟩)]⟩

/-- A serialized blob carrying one row whose state byte is 1
(unconfirmed) and whose `need_check` byte is 1. -/
def blobC5 : List Nat :=
  encLE 4 serial_magic ++ encLE 8 0 ++ [0x42] ++ encLE 32 1 ++
  txEncode emptyTx ++ [1] ++ encLE 8 5 ++ [1]

/-- A store with a confirmed row whose `need_check` flag is set. -/
def storeC5 : Store := ⟨0, [(4, ⟨emptyTx, tx_state.confirmed, 10, 0, true⟩)]⟩

/-- `storeC5` after `tx_db::unconfirmed(4)`: the state changed but the
flag survived. -/
def storeC5after : Store := ⟨0, [(4, ⟨emptyTx, tx_state.unconfirmed, 10, 0, true⟩)]⟩

/-- A non-empty store for exercising `load` failures. -/
def storeC6 : Store := ⟨8, [(2, ⟨emptyTx, tx_state.unconfirmed, 0, 44, false⟩)]⟩

/-- A two-row store: hash 40 holds a transaction with two outputs whose
first output is spent by the transaction under hash 50. -/
def storeC7 : Store :=
  ⟨0, [(40, ⟨⟨[⟨⟨11, 0⟩, [5, 6]⟩], [⟨90, [7]⟩, ⟨91, []⟩]⟩, tx_state.confirmed, 9, 0, false⟩),
       (50, ⟨⟨[⟨⟨40, 1⟩, []⟩], [⟨55, [1]⟩]⟩, tx_state.unconfirmed, 0, 0, false⟩)]⟩

/-- A store holding a transaction without inputs under hash 4. -/
def storeC10 : Store := ⟨0, [(4, ⟨emptyTx, tx_state.unsent, 0, 0, false⟩)]⟩

/-- `check_fork` as implemented never changes the store: its marking
loop iterates over copies of the map entries. -/
theorem check_fork_eq_self (height : Nat) (s : Store) :
    tx_db.check_fork height s = s := rfl

/-- Claim C1: the spec says `check_fork(h)` sets `need_check = true` on
every confirmed row at the next-lower height, so `at_height(105)` on a
store with a confirmed row at height 100 should leave that row flagged.
Evaluating the code at that exact scenario shows the flag stays
`false`: both loops of `tx_db::check_fork` are `for (auto row : rows_)`,
so the assignment `row.second.need_check = true` mutates a loop-local
copy.  The marking pass the spec (and the function's own comment)
describes would flag the row, as the last conjunct shows. -/
theorem c1_check_fork_marking_lost :
    tx_db.at_height 105 storeC1 = ⟨105, [(1, rowC1)]⟩
    ∧ rowC1.need_check = false
    ∧ (tx_db.check_fork_marking 105 { storeC1 with last_height := 105 }).rows =
        [(1, { rowC1 with need_check := true })] := by
  exact ⟨rfl, rfl, by decide⟩

/-- Claim C2: the spec says only stale unconfirmed rows are dropped by
serialization.  Evaluating the code: a store whose single row is
confirmed (block height 50, timestamp 0) serialized with
`unconfirmed_timeout = 100` at `now = 101` emits a blob containing no
row at all (the skip condition of `tx_db::serialize` tests only
`timestamp + timeout < now`, for every state), so the round trip loses
the confirmed row. -/
theorem c2_serialize_drops_old_confirmed_row :
    storeC2.rows = [(7, ⟨emptyTx, tx_state.confirmed, 50, 0, false⟩)]
    ∧ tx_db.serialize 100 101 storeC2 = [96, 183, 205, 254, 60, 0, 0, 0, 0, 0, 0, 0]
    ∧ tx_db.load (tx_db.serialize 100 101 storeC2) 500 storeC2 = (true, ⟨60, []⟩) := by
  exact ⟨rfl, by decide, by decide⟩

/-- Claim C3: the spec requires the `fetch_transaction_index` error path
to be a harmless no-op when the row is absent.  In the code the handler
calls `tx_db::unconfirmed(tx_hash)` unconditionally, and that function
asserts `BITCOIN_ASSERT(i != rows_.end())`; on an absent hash the
assertion fails and the process aborts, modelled here by `none`. -/
theorem c3_get_index_error_on_absent_row_aborts :
    tx_db.unconfirmed 5 emptyStore = none
    ∧ get_index_on_error 5 ⟨emptyStore, 1⟩ = none := ⟨rfl, rfl⟩

/-- Claim C4 (counterexample): loading a legacy-magic blob into a
non-empty store returns true but leaves the previous rows in place, so
the store afterwards is not empty. -/
theorem c4_load_legacy_store_not_emptied :
    tx_db.load [0xc3, 0x61, 0xab, 0x3e] 0 storeC4 = (true, storeC4)
    ∧ storeC4.rows ≠ [] := by
  exact ⟨by decide, by decide⟩

/-- Claim C4 (amended): for every prior store state, loading a blob
whose first four bytes are the legacy magic `0x3EAB61C3` returns true
and leaves the store exactly as it was; in particular a store that was
empty stays empty.  (`tx_db::load` returns before assigning
`last_height_` or `rows_`.) -/
theorem c4_load_legacy_magic_leaves_store_unchanged
    (s : Store) (now : Nat) (rest : List Nat) :
    tx_db.load (0xc3 :: 0x61 :: 0xab :: 0x3e :: rest) now s = (true, s) := rfl

/-- Claim C5 (counterexample): the `need_check = true` implies
`state = confirmed` invariant is not maintained by the store
operations.  `load` (reachable in one step from a fresh store) accepts
a blob carrying an unconfirmed row with its `need_check` byte set and
produces a store violating the invariant; and on a store whose
confirmed row is flagged, `unconfirmed` keeps the flag while demoting
the state, so it does not preserve the invariant either. -/
theorem c5_invariant_not_preserved :
    tx_db.load blobC5 77 emptyStore =
      (true, ⟨0, [(1, ⟨emptyTx, tx_state.unconfirmed, 5, 5, true⟩)]⟩)
    ∧ ¬ needCheckInv (⟨0, [(1, ⟨emptyTx, tx_state.unconfirmed, 5, 5, true⟩)]⟩ : Store)
    ∧ needCheckInv storeC5
    ∧ tx_db.unconfirmed 4 storeC5 = some storeC5after
    ∧ ¬ needCheckInv storeC5after := by
  exact ⟨by decide, by decide, by decide, by decide, by decide⟩

/-- The current serialization magic differs from the legacy one. -/
theorem serial_magic_ne_old : serial_magic ≠ old_serial_magic := by decide

/-- Claim C6: `tx_db::load` is all-or-nothing.  Every failing outcome
(truncated header, unknown magic, bad row tag, or any other decode
failure) returns false and leaves the store exactly as it was, and a
successful load under the current magic replaces the contents with the
rows decoded from the blob alone: the result does not depend on the
prior store state. -/
theorem c6_load_all_or_nothing (data : List Nat) (now : Nat) (s : Store) :
    ((tx_db.load data now s).1 = false → (tx_db.load data now s).2 = s)
    ∧ (readLE 4 data = none → (tx_db.load data now s).1 = false)
    ∧ (∀ v r1, readLE 4 data = some (v, r1) → v ≠ old_serial_magic →
        v ≠ serial_magic → tx_db.load data now s = (false, s))
    ∧ (∀ r1 lh t rest, readLE 4 data = some (serial_magic, r1) →
        readLE 8 r1 = some (lh, t :: rest) → t ≠ serial_tx →
        tx_db.load data now s = (false, s))
    ∧ (∀ r1, readLE 4 data = some (serial_magic, r1) →
        (tx_db.load data now s).1 = (tx_db.load data now emptyStore).1
        ∧ ((tx_db.load data now s).1 = true →
          (tx_db.load data now s).2 = (tx_db.load data now emptyStore).2)) := by
  refine ⟨?_, ?_, ?_, ?_, ?_⟩
  · intro hfail
    unfold tx_db.load at *
    rcases h4 : readLE 4 data with _ | ⟨v, r1⟩
    · simp [h4]
    · simp only [h4] at hfail ⊢
      by_cases hold : v = old_serial_magic
      · simp [hold] at hfail
      · by_cases hser : v = serial_magic
        · simp only [hold, hser, serial_magic_ne_old, if_neg, if_false, if_true,
            reduceIte] at hfail ⊢
          rcases h8 : readLE 8 r1 with _ | ⟨lh, r2⟩
          · simp [h8]
          · simp only [h8] at hfail ⊢
            rcases hp : tx_db.parseRows (r2.length + 1) [] now r2 with _ | rows
            · simp [hp]
            · simp [hp] at hfail
        · simp [hold, hser]
  · intro h4
    unfold tx_db.load
    simp [h4]
  · intro v r1 h4 hold hser
    unfold tx_db.load
    simp [h4, hold, hser]
  · intro r1 lh t rest h4 h8 ht
    unfold tx_db.load
    simp only [h4, serial_magic_ne_old, reduceIte, h8]
    have hrows : tx_db.parseRows (rest.length + 1 + 1) [] now (t :: rest) = none := by
      unfold tx_db.parseRows
      simp [ht]
    simp [hrows]
  · intro r1 h4
    unfold tx_db.load
    simp only [h4, serial_magic_ne_old, reduceIte]
    rcases h8 : readLE 8 r1 with _ | ⟨lh, r2⟩
    · simp
    · rcases hp : tx_db.parseRows (r2.length + 1) [] now r2 with _ | rows <;> simp [hp]

/-- Witness for C6: a blob with magic 1 fails to load into `storeC6`
and leaves it untouched. -/
theorem c6_load_all_or_nothing_witness :
    tx_db.load [1, 0, 0, 0] 5 storeC6 = (false, storeC6) :=
  (c6_load_all_or_nothing [1, 0, 0, 0] 5 storeC6).2.2.1 1 [] rfl
    (by decide) (by decide)

/-- Membership in an updated row list: every element is either an
untouched original row or the image of an original row under the
update. -/
theorem mem_updateRow {tx_hash : Nat} {f : TxRow → TxRow}
    {rows : List (Nat × TxRow)} {r : Nat × TxRow}
    (hr : r ∈ updateRow tx_hash f rows) :
    ∃ r0 ∈ rows, r = r0 ∨ r = (r0.1, f r0.2) := by
  rcases List.mem_map.1 hr with ⟨r0, hr0, heq⟩
  refine ⟨r0, hr0, ?_⟩
  by_cases h : r0.1 = tx_hash
  · rw [if_pos h] at heq
    right
    exact heq.symm
  · rw [if_neg h] at heq
    left
    exact heq.symm

/-- Claim C5 (amended): preservation for six of the operations. -/
theorem c5_need_check_invariant_six_ops (s : Store) (hs : needCheckInv s) :
    (∀ hashFn tx st now, needCheckInv (tx_db.insert hashFn tx st now s).2)
    ∧ (∀ h bh s', tx_db.confirmed h bh s = some s' → needCheckInv s')
    ∧ (∀ h, needCheckInv (tx_db.forget h s))
    ∧ (∀ h now, needCheckInv (tx_db.reset_timestamp h now s))
    ∧ (∀ h, needCheckInv (tx_db.check_fork h s))
    ∧ (∀ h, needCheckInv (tx_db.at_height h s)) := by
  refine ⟨?_, ?_, ?_, ?_, ?_, ?_⟩
  · intro hashFn tx st now
    rcases hf : findRow (hashFn tx) s.rows with _ | row
    · intro r hr
      simp only [tx_db.insert, hf] at hr
      rcases List.mem_cons.1 hr with rfl | hmem
      · intro hneed
        simp at hneed
      · exact hs r hmem
    · intro r hr
      simp only [tx_db.insert, hf] at hr
      exact hs r hr
  · intro h bh s' hc
    unfold tx_db.confirmed at hc
    rcases hf : findRow h s.rows with _ | row
    · simp [hf] at hc
    · simp only [hf, check_fork_eq_self, ite_self] at hc
      rcases Option.some.inj hc with rfl
      intro r hr
      simp only at hr
      rcases mem_updateRow hr with ⟨r0, hr0, heq | heq⟩
      · subst heq
        exact hs _ hr0
      · subst heq
        intro _
        rfl
  · intro h r hr
    exact hs r (List.mem_of_mem_filter hr)
  · intro h now
    rcases hf : findRow h s.rows with _ | row
    · intro r hr
      simp only [tx_db.reset_timestamp, hf] at hr
      exact hs r hr
    · intro r hr
      simp only [tx_db.reset_timestamp, hf] at hr
      rcases mem_updateRow hr with ⟨r0, hr0, heq | heq⟩
      · subst heq
        exact hs _ hr0
      · subst heq
        exact hs r0 hr0
  · intro h
    rw [check_fork_eq_self]
    exact hs
  · intro h r hr
    exact hs r hr

/-- Witness for the amended C5: preservation applied to the empty
store under `forget`. -/
theorem c5_need_check_invariant_six_ops_witness :
    needCheckInv (tx_db.forget 3 emptyStore) :=
  (c5_need_check_invariant_six_ops emptyStore (by decide)).2.2.1 3

/-- Every point produced by one row's pass carries that row's hash. -/
theorem mem_rowUtxos_fst {spent : List OutPoint} {h : Nat} {row : TxRow}
    {x : OutPoint} (hx : x ∈ (tx_db.rowUtxos spent h row).map Prod.fst) :
    x.hash = h := by
  simp only [tx_db.rowUtxos, List.map_filterMap, List.mem_filterMap,
    List.mem_range, Option.map_eq_some', Option.ite_none_left_eq_some,
    Option.some.injEq] at hx
  rcases hx with ⟨i, hi, ⟨pv, ⟨hns, rfl⟩, rfl⟩⟩
  rfl

/-- Claim C7: for every store with unique keys, `get_utxos` returns
exactly the pairs `(outpoint, value)` over all outputs of all rows whose
outpoint is not referenced by any input of any row, without duplicates,
and on a store with no rows it returns the empty list. -/
theorem c7_get_utxos_spec (s : Store) (hnd : nodupKeys s) :
    (∀ p v, (p, v) ∈ tx_db.get_utxos s ↔
      ((p, v) ∈ tx_db.allOutputs s ∧ p ∉ tx_db.spends s))
    ∧ ((tx_db.get_utxos s).map Prod.fst).Nodup
    ∧ (tx_db.get_utxos s).Nodup
    ∧ (s.rows = [] → tx_db.get_utxos s = []) := by
  have hfst : ((tx_db.get_utxos s).map Prod.fst).Nodup := by
    rw [tx_db.get_utxos, List.map_flatMap, List.nodup_flatMap]
    constructor
    · intro r _
      rw [tx_db.rowUtxos, List.map_filterMap]
      apply List.Nodup.filterMap
      · intro a a' b hb hb'
        simp only [Option.mem_def, Option.map_eq_some', Option.ite_none_left_eq_some,
          Option.some.injEq] at hb hb'
        rcases hb with ⟨pv, ⟨hns, rfl⟩, rfl⟩
        rcases hb' with ⟨pv', ⟨hns', rfl⟩, h2⟩
        simp only [OutPoint.mk.injEq] at h2
        omega
      · exact List.nodup_range _
    · have hp : s.rows.Pairwise (fun a b => a.1 ≠ b.1) :=
        List.pairwise_map.mp hnd
      refine hp.imp ?_
      intro a b hab x hxa hxb
      exact hab ((mem_rowUtxos_fst hxa).symm.trans (mem_rowUtxos_fst hxb))
  have hmem : ∀ p v, (p, v) ∈ tx_db.get_utxos s ↔
      ((p, v) ∈ tx_db.allOutputs s ∧ p ∉ tx_db.spends s) := by
    intro p v
    simp only [tx_db.get_utxos, tx_db.rowUtxos, tx_db.allOutputs, List.mem_flatMap,
      List.mem_filterMap, List.mem_map, List.mem_range, Option.ite_none_left_eq_some,
      Option.some.injEq, Prod.mk.injEq]
    constructor
    · rintro ⟨r, hr, i, hi, hns, hpt, hv⟩
      subst hpt
      subst hv
      exact ⟨⟨r, hr, i, hi, rfl, rfl⟩, hns⟩
    · rintro ⟨⟨r, hr, i, hi, hpt, hv⟩, hns⟩
      subst hpt
      subst hv
      exact ⟨r, hr, i, hi, hns, rfl, rfl⟩
  refine ⟨hmem, hfst, List.Nodup.of_map Prod.fst hfst, ?_⟩
  intro hrows
  simp [tx_db.get_utxos, hrows]

/-- Witness for C7: the two-row store's UTXO list is duplicate free,
and on the empty store the list is empty. -/
theorem c7_get_utxos_spec_witness :
    ((tx_db.get_utxos storeC7).map Prod.fst).Nodup
    ∧ tx_db.get_utxos emptyStore = [] :=
  ⟨(c7_get_utxos_spec storeC7 (by decide)).2.1,
   (c7_get_utxos_spec emptyStore (by decide)).2.2.2 rfl⟩

/-- Folding a two-element event list, stated for an arbitrary step
function. -/
theorem foldl_pair {α β : Type} (f : α → β → α) (n : α) (a b : β) :
    List.foldl f n [a, b] = f (f n a) b := rfl

/-- Folding a one-element event list, stated for an arbitrary step
function. -/
theorem foldl_single {α β : Type} (f : α → β → α) (n : α) (a : β) :
    List.foldl f n [a] = f n a := rfl

/-- The `queued_queries_` counter stays below `2 ^ 64` along every
event sequence. -/
theorem qfold_lt (l : List QEvent) : ∀ n : Nat, n < 2 ^ 64 → l.foldl qnext n < 2 ^ 64 := by
  induction l with
  | nil => intro n hn; exact hn
  | cons e t ih =>
    intro n hn
    rw [List.foldl_cons]
    apply ih
    cases e <;> exact Nat.mod_lt _ (by norm_num)

/-- Claim C8: along any balanced dispatch/completion sequence,
`on_quiet` is emitted at position `i` exactly when that step is a
completion taking the counter from 1 to 0; an emission leaves the
counter at 0 (so nothing is emitted while queries remain queued); and
the `fetch_transaction` error handler, which dispatches the mempool
fallback before calling `query_done`, leaves the counter unchanged and
emits nothing when at least one query was outstanding. -/
theorem c8_on_quiet_edge (es : List QEvent)
    (hbal : es.count QEvent.complete = es.count QEvent.dispatch)
    (i : Nat) (hi : i < es.length) :
    (quietAt es i = true ↔
      es.getD i QEvent.dispatch = QEvent.complete ∧ qcount (es.take i) = 1)
    ∧ (quietAt es i = true → qcount (es.take (i + 1)) = 0)
    ∧ (∀ n, 0 < n → n < 2 ^ 64 →
        getTxOnErrorEvents.foldl qnext n = n
        ∧ qemits n QEvent.dispatch = false
        ∧ qemits (qnext n QEvent.dispatch) QEvent.complete = false) := by
  have hql : qcount (es.take i) < 2 ^ 64 := qfold_lt _ 0 (by norm_num)
  have hiff : quietAt es i = true ↔
      es.getD i QEvent.dispatch = QEvent.complete ∧ qcount (es.take i) = 1 := by
    cases hgd : es.getD i QEvent.dispatch with
    | dispatch =>
      simp only [quietAt, hgd, qemits]
      simp
    | complete =>
      simp only [quietAt, hgd, qemits, decide_eq_true_eq, true_and]
      omega
  have hstep : qcount (es.take (i + 1)) =
      qnext (qcount (es.take i)) (es.getD i QEvent.dispatch) := by
    rw [qcount, List.take_succ, List.foldl_append, List.getElem?_eq_getElem hi]
    rw [List.getD_eq_getElem?_getD, List.getElem?_eq_getElem hi]
    exact foldl_single qnext _ _
  refine ⟨hiff, ?_, ?_⟩
  · intro hq
    rcases hiff.mp hq with ⟨hc, h1⟩
    have hzero : qnext 1 QEvent.complete = 0 := by
      rw [qnext]
      norm_num
    rw [hstep, hc, h1, hzero]
  · intro n hn0 hn
    refine ⟨?_, rfl, ?_⟩
    · rw [getTxOnErrorEvents, foldl_pair]
      show ((n + 1) % 2 ^ 64 + (2 ^ 64 - 1)) % 2 ^ 64 = n
      rcases Nat.lt_or_ge (n + 1) (2 ^ 64) with h | h
      · rw [Nat.mod_eq_of_lt h]
        omega
      · have h2 : n + 1 = 2 ^ 64 := by omega
        rw [h2, Nat.mod_self]
        omega
    · simp only [qemits, qnext, decide_eq_false_iff_not]
      rcases Nat.lt_or_ge (n + 1) (2 ^ 64) with h | h
      · rw [Nat.mod_eq_of_lt h]
        omega
      · have h2 : n + 1 = 2 ^ 64 := by omega
        rw [h2, Nat.mod_self]
        omega

/-- Witness for C8: after one dispatch and its completion, the
completion step emits the quiet signal. -/
theorem c8_on_quiet_edge_witness :
    quietAt [QEvent.dispatch, QEvent.complete] 1 = true :=
  ((c8_on_quiet_edge [QEvent.dispatch, QEvent.complete] (by decide) 1
    (by decide)).1).mpr ⟨by decide, by decide⟩

/-- A key is absent from the row list exactly when `find` fails. -/
theorem findRow_eq_none_iff {tx_hash : Nat} {rows : List (Nat × TxRow)} :
    findRow tx_hash rows = none ↔ tx_hash ∉ rows.map Prod.fst := by
  induction rows with
  | nil => simp [findRow]
  | cons r rest ih =>
    by_cases h : r.1 = tx_hash
    · simp [findRow, h]
    · rw [findRow, if_neg h, ih]
      simp only [List.map_cons, List.mem_cons]
      constructor
      · intro hnot hor
        rcases hor with he | hm
        · exact h he.symm
        · exact hnot hm
      · intro hnot hm
        exact hnot (Or.inr hm)

/-- `insert` adds its hash to the key set (as a set, duplicates
ignored). -/
theorem insert_keys_toFinset (hashFn : Transaction → Nat) (tx : Transaction)
    (st now : Nat) (s : Store) :
    ((tx_db.insert hashFn tx st now s).2.rows.map Prod.fst).toFinset =
      insert (hashFn tx) (s.rows.map Prod.fst).toFinset := by
  rcases hf : findRow (hashFn tx) s.rows with _ | row
  · simp [tx_db.insert, hf]
  · have hmem : hashFn tx ∈ s.rows.map Prod.fst := by
      by_contra hnot
      rw [← findRow_eq_none_iff] at hnot
      rw [hf] at hnot
      exact Option.noConfusion hnot
    simp only [tx_db.insert, hf]
    exact (Finset.insert_eq_self.mpr (List.mem_toFinset.mpr hmem)).symm

/-- `insert` keeps the keys duplicate free. -/
theorem insert_nodupKeys (hashFn : Transaction → Nat) (tx : Transaction)
    (st now : Nat) (s : Store) (h : nodupKeys s) :
    nodupKeys (tx_db.insert hashFn tx st now s).2 := by
  rcases hf : findRow (hashFn tx) s.rows with _ | row
  · have hnot : hashFn tx ∉ s.rows.map Prod.fst := findRow_eq_none_iff.mp hf
    simp only [tx_db.insert, hf, nodupKeys, List.map_cons, List.nodup_cons]
    exact ⟨hnot, h⟩
  · simp only [tx_db.insert, hf]
    exact h

/-- The key set after a call sequence is the union of the initial keys
and the hashes of the inserted transactions. -/
theorem insertAll_keys (hashFn : Transaction → Nat)
    (calls : List (Transaction × Nat × Nat)) : ∀ s : Store,
    ((insertAll hashFn calls s).rows.map Prod.fst).toFinset =
      (s.rows.map Prod.fst).toFinset ∪ (calls.map fun c => hashFn c.1).toFinset := by
  induction calls with
  | nil => intro s; simp [insertAll]
  | cons c rest ih =>
    intro s
    rw [show insertAll hashFn (c :: rest) s =
          insertAll hashFn rest (tx_db.insert hashFn c.1 c.2.1 c.2.2 s).2 from rfl]
    rw [ih, insert_keys_toFinset]
    simp [Finset.insert_union, Finset.union_insert]

/-- A call sequence keeps the keys duplicate free. -/
theorem insertAll_nodupKeys (hashFn : Transaction → Nat)
    (calls : List (Transaction × Nat × Nat)) : ∀ s : Store, nodupKeys s →
    nodupKeys (insertAll hashFn calls s) := by
  induction calls with
  | nil => intro s h; exact h
  | cons c rest ih =>
    intro s h
    exact ih _ (insert_nodupKeys hashFn c.1 c.2.1 c.2.2 s h)

/-- Claim C9: insert behavior. -/
theorem c9_insert_spec (hashFn : Transaction → Nat) (tx : Transaction)
    (st now : Nat) (s : Store) :
    (findRow (hashFn tx) s.rows = none →
      tx_db.insert hashFn tx st now s =
        (true, ⟨s.last_height, (hashFn tx, ⟨tx, st, 0, now, false⟩) :: s.rows⟩))
    ∧ (∀ row, findRow (hashFn tx) s.rows = some row →
        tx_db.insert hashFn tx st now s = (false, s))
    ∧ (∀ calls : List (Transaction × Nat × Nat),
        (insertAll hashFn calls emptyStore).rows.length =
          (calls.map (fun c => hashFn c.1)).toFinset.card) := by
  refine ⟨?_, ?_, ?_⟩
  · intro hf
    simp [tx_db.insert, hf]
  · intro row hf
    simp [tx_db.insert, hf]
  · intro calls
    have h1 := insertAll_keys hashFn calls emptyStore
    have h2 : nodupKeys (insertAll hashFn calls emptyStore) :=
      insertAll_nodupKeys hashFn calls emptyStore (by simp [nodupKeys, emptyStore])
    calc (insertAll hashFn calls emptyStore).rows.length
        = ((insertAll hashFn calls emptyStore).rows.map Prod.fst).length := by
          rw [List.length_map]
      _ = ((insertAll hashFn calls emptyStore).rows.map Prod.fst).toFinset.card :=
          (List.toFinset_card_of_nodup h2).symm
      _ = (calls.map (fun c => hashFn c.1)).toFinset.card := by
          rw [h1]
          simp [emptyStore]

/-- Witness for C9: inserting one transaction into the empty store
under a constant hash function. -/
theorem c9_insert_spec_witness :
    tx_db.insert (fun _ => 7) emptyTx 0 11 emptyStore =
      (true, ⟨0, [(7, ⟨emptyTx, 0, 0, 11, false⟩)]⟩) :=
  (c9_insert_spec (fun _ => 7) emptyTx 0 11 emptyStore).1 rfl

/-- Claim C10: when a stored transaction has no inputs, the universally
quantified input check of `tx_db::is_spend` is vacuous, so the call
returns true for every address set and every script-to-address
extraction, including the empty set. -/
theorem c10_is_spend_no_inputs (extract : List Nat → Option Nat) (s : Store)
    (tx_hash : Nat) (addresses : List Nat) (row : TxRow)
    (hrow : findRow tx_hash s.rows = some row) (hin : row.tx.inputs = []) :
    tx_db.is_spend extract tx_hash addresses s = true := by
  simp [tx_db.is_spend, hrow, hin]

/-- Witness for C10: the no-input transaction under hash 4 is reported
as a spend even for the empty address set and an extraction that always
fails. -/
theorem c10_is_spend_no_inputs_witness :
    tx_db.is_spend (fun _ => none) 4 [] storeC10 = true :=
  c10_is_spend_no_inputs (fun _ => none) storeC10 4 [] _ rfl rfl
